import Mathlib

/-!
Verification development for the chat application's real-time messaging core.

The definitions below are a shallow embedding of the TypeScript source:
strings are modelled as `List Char`, JavaScript `Map`/`Set` registries as
association lists, Prisma queries as list filtering/sorting, and
`Date.now()` as an explicit `Nat` parameter.  Each definition mirrors one
source function and keeps its name where Lean allows it.
-/

namespace Chat

/-! ## Content sanitization (`src/lib/sanitize.ts`)

`sanitizeMessageContent` performs
`raw.replace(/[\u0000-\u001F\u007F]/g, "").replace(/[<>]/g, "").trim()`.
JavaScript `String.prototype.trim` removes exactly the WhiteSpace and
LineTerminator code points (TAB, LF, VT, FF, CR, SP, NBSP, the Zs
space separators, LS, PS and the BOM). -/

/-- Characters matched by the regex `[\u0000-\u001F\u007F]`: the C0 control
block together with DEL. -/
def isControlOrDel (c : Char) : Bool :=
  c.toNat ≤ 0x1F || c.toNat == 0x7F

/-- Characters matched by the regex `[<>]`. -/
def isAngle (c : Char) : Bool :=
  c == '<' || c == '>'

/-- The code points removed by JavaScript `String.prototype.trim`
(ECMAScript WhiteSpace plus LineTerminator). -/
def isJsWhitespace (c : Char) : Bool :=
  let n := c.toNat
  n == 0x9 || n == 0xA || n == 0xB || n == 0xC || n == 0xD || n == 0x20 ||
  n == 0xA0 || n == 0x1680 || (0x2000 ≤ n && n ≤ 0x200A) ||
  n == 0x2028 || n == 0x2029 || n == 0x202F || n == 0x205F ||
  n == 0x3000 || n == 0xFEFF

/-- Drop trailing characters satisfying `isJsWhitespace`. -/
def trimEnd : List Char → List Char
  | [] => []
  | c :: cs =>
    match trimEnd cs with
    | [] => if isJsWhitespace c then [] else [c]
    | x :: xs => c :: x :: xs

/-- JavaScript `String.prototype.trim` on a list of characters. -/
def jsTrim (l : List Char) : List Char :=
  trimEnd (l.dropWhile isJsWhitespace)

/-- `sanitizeMessageContent` from `src/lib/sanitize.ts`: strip C0 controls
and DEL, strip angle brackets, then trim. -/
def sanitizeMessageContent (raw : List Char) : List Char :=
  jsTrim ((raw.filter (fun c => !isControlOrDel c)).filter (fun c => !isAngle c))

/-! ### Sanitizer lemmas -/

theorem trimEnd_subset {l : List Char} {c : Char} (h : c ∈ trimEnd l) : c ∈ l := by
  induction l with
  | nil => simp [trimEnd] at h
  | cons a as ih =>
    simp only [trimEnd] at h
    cases heq : trimEnd as with
    | nil =>
      rw [heq] at h
      by_cases hw : isJsWhitespace a
      · simp [hw] at h
      · simp [hw] at h
        simp [h]
    | cons x xs =>
      rw [heq] at h
      rcases List.mem_cons.mp h with h1 | h2
      · simp [h1]
      · exact List.mem_cons_of_mem a (ih (heq ▸ h2))

theorem trimEnd_idem (l : List Char) : trimEnd (trimEnd l) = trimEnd l := by
  induction l with
  | nil => rfl
  | cons a as ih =>
    simp only [trimEnd]
    cases heq : trimEnd as with
    | nil =>
      by_cases hw : isJsWhitespace a
      · simp [hw, trimEnd]
      · simp [hw, trimEnd]
    | cons x xs =>
      have hx : trimEnd (x :: xs) = x :: xs := by
        rw [← heq, ih, heq]
      rw [trimEnd, hx]

theorem trimEnd_getLast_not_ws {l : List Char} {c : Char}
    (h : (trimEnd l).getLast? = some c) : isJsWhitespace c = false := by
  induction l with
  | nil => simp [trimEnd] at h
  | cons a as ih =>
    simp only [trimEnd] at h
    cases heq : trimEnd as with
    | nil =>
      rw [heq] at h
      by_cases hw : isJsWhitespace a
      · simp [hw] at h
      · simp [hw] at h
        rw [← h]
        exact Bool.eq_false_iff.mpr hw
    | cons x xs =>
      rw [heq] at h
      rw [List.getLast?_cons_cons] at h
      exact ih (heq ▸ h)

theorem dropWhile_head_false {p : Char → Bool} {l : List Char} {c : Char}
    {cs : List Char} (h : l.dropWhile p = c :: cs) : p c = false := by
  induction l with
  | nil => simp [List.dropWhile] at h
  | cons a as ih =>
    rw [List.dropWhile_cons] at h
    by_cases hp : p a
    · simp [hp] at h
      exact ih h
    · simp [hp] at h
      rw [← h.1]
      exact Bool.eq_false_iff.mpr hp

theorem trimEnd_head {l : List Char} :
    trimEnd l = [] ∨ (trimEnd l).head? = l.head? := by
  cases l with
  | nil => exact Or.inl rfl
  | cons a as =>
    simp only [trimEnd]
    cases trimEnd as with
    | nil =>
      by_cases hw : isJsWhitespace a
      · simp [hw]
      · simp [hw]
    | cons x xs => simp

theorem jsTrim_idem (l : List Char) : jsTrim (jsTrim l) = jsTrim l := by
  unfold jsTrim
  have hdw : (trimEnd (l.dropWhile isJsWhitespace)).dropWhile isJsWhitespace =
      trimEnd (l.dropWhile isJsWhitespace) := by
    cases heq : l.dropWhile isJsWhitespace with
    | nil => simp [heq, trimEnd]
    | cons c cs =>
      have hc : isJsWhitespace c = false := dropWhile_head_false heq
      rcases trimEnd_head (l := c :: cs) with h0 | h1
      · rw [h0]; rfl
      · cases h2 : trimEnd (c :: cs) with
        | nil => rfl
        | cons y ys =>
          rw [h2] at h1
          simp only [List.head?_cons] at h1
          rw [List.dropWhile_cons]
          have : y = c := Option.some.inj h1
          rw [this, hc]
          simp
  rw [hdw, trimEnd_idem]

theorem mem_of_mem_dropWhile {p : Char → Bool} {l : List Char} {c : Char}
    (h : c ∈ l.dropWhile p) : c ∈ l := by
  induction l with
  | nil => simp at h
  | cons a as ih =>
    rw [List.dropWhile_cons] at h
    by_cases hp : p a
    · simp only [hp, if_true] at h
      exact List.mem_cons_of_mem a (ih h)
    · simpa only [hp, if_false] using h

theorem jsTrim_subset {l : List Char} {c : Char} (h : c ∈ jsTrim l) : c ∈ l := by
  unfold jsTrim at h
  exact mem_of_mem_dropWhile (trimEnd_subset h)

theorem sanitize_mem {l : List Char} {c : Char}
    (h : c ∈ sanitizeMessageContent l) :
    isControlOrDel c = false ∧ isAngle c = false ∧ c ∈ l := by
  unfold sanitizeMessageContent at h
  have h1 := jsTrim_subset h
  have h2 := List.mem_filter.mp h1
  have h3 := List.mem_filter.mp h2.1
  refine ⟨?_, ?_, h3.1⟩
  · simpa using h3.2
  · simpa using h2.2

theorem sanitize_idem (l : List Char) :
    sanitizeMessageContent (sanitizeMessageContent l) = sanitizeMessageContent l := by
  unfold sanitizeMessageContent
  have hf1 : (sanitizeMessageContent l).filter (fun c => !isControlOrDel c) =
      sanitizeMessageContent l := by
    apply List.filter_eq_self.mpr
    intro c hc
    simpa using (sanitize_mem hc).1
  have hf2 : (sanitizeMessageContent l).filter (fun c => !isAngle c) =
      sanitizeMessageContent l := by
    apply List.filter_eq_self.mpr
    intro c hc
    simpa using (sanitize_mem hc).2.1
  show jsTrim (((sanitizeMessageContent l).filter _).filter _) = _
  rw [hf1, hf2]
  show jsTrim (jsTrim _) = _
  rw [jsTrim_idem]

theorem sanitize_head_not_ws {l : List Char} {c : Char}
    (h : (sanitizeMessageContent l).head? = some c) : isJsWhitespace c = false := by
  unfold sanitizeMessageContent jsTrim at h
  rcases trimEnd_head
      (l := ((l.filter (fun c => !isControlOrDel c)).filter
        (fun c => !isAngle c)).dropWhile isJsWhitespace) with h0 | h1
  · rw [h0] at h; simp at h
  · rw [h1] at h
    cases heq : ((l.filter (fun c => !isControlOrDel c)).filter
        (fun c => !isAngle c)).dropWhile isJsWhitespace with
    | nil => rw [heq] at h; simp at h
    | cons y ys =>
      rw [heq] at h
      simp only [List.head?_cons] at h
      exact Option.some.inj h ▸ dropWhile_head_false heq

theorem sanitize_getLast_not_ws {l : List Char} {c : Char}
    (h : (sanitizeMessageContent l).getLast? = some c) : isJsWhitespace c = false :=
  trimEnd_getLast_not_ws h

/-! ## Payload validation (`src/lib/validators.ts`)

The zod schemas are embedded as boolean predicates over already-shaped
payloads.  `sendRoomMessageSchema` and `privateMessageSchema` share
`baseMessageSchema` (content ≤ 2000 chars, fileUrl ≤ 500 chars starting
with "/uploads/") plus the refinement
`Boolean(value.content?.trim() || value.fileUrl)`.  JavaScript truthiness
of a string is non-emptiness. -/

/-- Test whether `needle` is an initial segment of `haystack`
(JavaScript `String.prototype.startsWith`). -/
def listStarts : List Char → List Char → Bool
  | [], _ => true
  | _ :: _, [] => false
  | a :: as, b :: bs => a == b && listStarts as bs

/-- Hexadecimal digit test used by the uuid format check. -/
def isHexDigit (c : Char) : Bool :=
  ('0' ≤ c && c ≤ '9') || ('a' ≤ c && c ≤ 'f') || ('A' ≤ c && c ≤ 'F')

/-- The zod `.uuid()` format check: five hyphen-separated hex groups of
lengths 8-4-4-4-12. -/
def isUuid (l : List Char) : Bool :=
  match l.splitOn '-' with
  | [a, b, c, d, e] =>
    a.length == 8 && b.length == 4 && c.length == 4 && d.length == 4 &&
    e.length == 12 && (a ++ b ++ c ++ d ++ e).all isHexDigit
  | _ => false

/-- The shared content/fileUrl part of a send payload. -/
structure MsgPayload where
  content : Option (List Char)
  fileUrl : Option (List Char)
deriving DecidableEq, Repr

/-- JavaScript truthiness of an optional string: present and non-empty. -/
def truthyStr : Option (List Char) → Bool
  | none => false
  | some s => !s.isEmpty

/-- Field checks of `baseMessageSchema`: content at most 2000 chars;
fileUrl at most 500 chars and starting with "/uploads/". -/
def baseFieldsOk (p : MsgPayload) : Bool :=
  (match p.content with
   | none => true
   | some c => c.length ≤ 2000) &&
  (match p.fileUrl with
   | none => true
   | some f => f.length ≤ 500 && listStarts ("/uploads/".toList) f)

/-- The `.refine` clause `Boolean(value.content?.trim() || value.fileUrl)`. -/
def refineContentOrFile (p : MsgPayload) : Bool :=
  (match p.content with
   | none => false
   | some c => !(jsTrim c).isEmpty) || truthyStr p.fileUrl

/-- Whether the shared payload part of `sendRoomMessageSchema` /
`privateMessageSchema` parses successfully. -/
def sendMessagePayloadOk (p : MsgPayload) : Bool :=
  baseFieldsOk p && refineContentOrFile p

/-- The content stored by the message-create calls:
`sanitizedContent || (parsed.data.fileUrl ? "Shared a file" : "")`. -/
def storedContentFor (p : MsgPayload) : List Char :=
  let s := sanitizeMessageContent (p.content.getD [])
  if s.isEmpty then
    (if truthyStr p.fileUrl then "Shared a file".toList else [])
  else s

/-- Query parameters of `GET /api/messages` relevant to the roomId /
receiverId exclusivity check. -/
structure HistoryQuery where
  roomId : Option (List Char)
  receiverId : Option (List Char)
deriving DecidableEq, Repr

/-- `messageHistoryQuerySchema`: both ids must be valid uuids when given,
and the `superRefine` rejects the query when
`Boolean(roomId) === Boolean(receiverId)` (a parsed uuid is always a
non-empty, hence truthy, string). -/
def historyQueryOk (q : HistoryQuery) : Bool :=
  (match q.roomId with
   | none => true
   | some r => isUuid r) &&
  (match q.receiverId with
   | none => true
   | some r => isUuid r) &&
  ((match q.roomId with | none => false | some _ => true) !=
   (match q.receiverId with | none => false | some _ => true))

/-- The JSON body of `POST /api/messages`. -/
structure CreateBody where
  roomId : Option (List Char)
  receiverId : Option (List Char)
  content : Option (List Char)
  fileUrl : Option (List Char)
deriving DecidableEq, Repr

/-- Outcome of the `POST /api/messages` schema dispatch. -/
inductive PostDecision where
  | rejected
  | roomMessage (roomId : List Char)
  | directMessage (receiverId : List Char)
deriving DecidableEq, Repr

/-- The dispatch in `POST /api/messages`:
`isRoomMessage = typeof body.roomId === "string"` selects
`sendRoomMessageSchema` (which silently strips the unknown `receiverId`
key), otherwise `privateMessageSchema` is applied. -/
def postMessageDecision (b : CreateBody) : PostDecision :=
  match b.roomId with
  | some r =>
    if isUuid r && sendMessagePayloadOk ⟨b.content, b.fileUrl⟩ then
      .roomMessage r
    else .rejected
  | none =>
    match b.receiverId with
    | some r =>
      if isUuid r && sendMessagePayloadOk ⟨b.content, b.fileUrl⟩ then
        .directMessage r
      else .rejected
    | none => .rejected

/-! ## Message store and history pagination (`GET /api/messages`)

A Prisma `Message` row.  Creation timestamps are modelled as `Nat`. -/

structure StoredMessage where
  id : Nat
  content : List Char
  fileUrl : Option (List Char)
  senderId : String
  roomId : Option String
  receiverId : Option String
  createdAt : Nat
deriving DecidableEq, Repr

/-- The `createdAt < before` filter applied when a cursor is present. -/
def beforeOk (before : Option Nat) (m : StoredMessage) : Bool :=
  match before with
  | none => true
  | some b => m.createdAt < b

/-- The `where.roomId = room.id` filter. -/
def roomPred (roomId : String) (m : StoredMessage) : Bool :=
  m.roomId == some roomId

/-- The `where.OR` filter of the receiverId branch: caller is sender and
`other` is receiver, or the converse. -/
def dmPred (caller other : String) (m : StoredMessage) : Bool :=
  (m.senderId == caller && m.receiverId == some other) ||
  (m.senderId == other && m.receiverId == some caller)

/-- Insert into a list kept in descending `createdAt` order. -/
def insertDesc (m : StoredMessage) : List StoredMessage → List StoredMessage
  | [] => [m]
  | x :: xs =>
    if m.createdAt ≤ x.createdAt then x :: insertDesc m xs
    else m :: x :: xs

/-- The store's `orderBy: [{ createdAt: "desc" }]` read order. -/
def sortDesc (l : List StoredMessage) : List StoredMessage :=
  l.foldr insertDesc []

/-- Result shape of `GET /api/messages`. -/
structure Page where
  messages : List StoredMessage
  nextBefore : Option Nat
deriving DecidableEq, Repr

/-- The pagination core of `GET /api/messages`: fetch matching rows in
descending creation-time order, take `limit + 1`, detect continuation,
drop the extra row, compute `nextBefore` from the last (oldest) kept row,
and reverse for display. -/
def runListQuery (db : List StoredMessage) (pred : StoredMessage → Bool)
    (before : Option Nat) (limit : Nat) : Page :=
  let rows := (sortDesc (db.filter (fun m => pred m && beforeOk before m))).take (limit + 1)
  let hasMore := limit < rows.length
  let sliced := if hasMore then rows.take limit else rows
  let nextBefore := if hasMore then (sliced.getLast?).map (fun m => m.createdAt) else none
  ⟨sliced.reverse, nextBefore⟩

/-- Room-history read (`GET /api/messages?roomId=...`). -/
def listRoomMessages (db : List StoredMessage) (roomId : String)
    (before : Option Nat) (limit : Nat) : Page :=
  runListQuery db (roomPred roomId) before limit

/-- Direct-message history read (`GET /api/messages?receiverId=...`),
issued by `caller` against conversation partner `other`. -/
def listDirectMessages (db : List StoredMessage) (caller other : String)
    (before : Option Nat) (limit : Nat) : Page :=
  runListQuery db (dmPred caller other) before limit

/-! ## Rooms and the two room-message send paths -/

/-- A Prisma `Room` row (fields used by the send paths). -/
structure Room where
  id : List Char
  isPrivate : Bool
  creatorId : String
deriving DecidableEq, Repr

/-- `prisma.room.findUnique({ where: { id } })`. -/
def findRoom (rooms : List Room) (rid : List Char) : Option Room :=
  rooms.find? (fun r => r.id == rid)

/-- Error taxonomy of the send paths. -/
inductive SendErr where
  | validation
  | notFound
  | forbidden
deriving DecidableEq, Repr

/-- `createRoomMessage` on the socket path (`initSocketServer`): schema
parse, then room existence, then create — no privacy check. -/
def socketSendRoom (rooms : List Room) (_sender : String) (rid : List Char)
    (p : MsgPayload) : Except SendErr (List Char) :=
  if !(isUuid rid && sendMessagePayloadOk p) then .error .validation
  else
    match findRoom rooms rid with
    | none => .error .notFound
    | some _ => .ok (storedContentFor p)

/-- The room branch of `POST /api/messages`: schema parse, room existence,
then `room.isPrivate && room.creatorId !== authPayload.sub` yields
`Forbidden`, else create. -/
def restPostRoom (rooms : List Room) (sender : String) (rid : List Char)
    (p : MsgPayload) : Except SendErr (List Char) :=
  if !(isUuid rid && sendMessagePayloadOk p) then .error .validation
  else
    match findRoom rooms rid with
    | none => .error .notFound
    | some room =>
      if room.isPrivate && room.creatorId != sender then .error .forbidden
      else .ok (storedContentFor p)

/-! ## Presence registry (`initSocketServer` in the socket server module)

The JavaScript `Map<string, Set<string>>` is modelled as an association
list from user id to the list of that user's socket ids (the list plays
the role of the `Set`: insertion skips an already-present element). -/

/-- The presence registry state. -/
abbrev Presence : Type := List (String × List String)

/-- The empty registry (server start). -/
def emptyPresence : Presence := []

/-- Overwrite the binding of `u` (JavaScript `Map.prototype.set` on an
existing key keeps the entry's position). -/
def setEntry : Presence → String → List String → Presence
  | [], u, s => [(u, s)]
  | e :: es, u, s => if e.1 == u then (u, s) :: es else e :: setEntry es u s

/-- Delete the binding of `u` (JavaScript `Map.prototype.delete`). -/
def removeKey (p : Presence) (u : String) : Presence :=
  p.filter (fun e => e.1 != u)

/-- `addOnlineUser(userId, socketId)`: create a singleton set for a new
user, otherwise add the socket id to the existing set. -/
def addOnlineUser (p : Presence) (u c : String) : Presence :=
  match List.lookup u p with
  | none => p ++ [(u, [c])]
  | some s => setEntry p u (if c ∈ s then s else s ++ [c])

/-- `removeOnlineUser(userId, socketId)`: delete the socket id; when the
set empties, drop the user entry and report `true` (the user went
offline), else report `false`. -/
def removeOnlineUser (p : Presence) (u c : String) : Presence × Bool :=
  match List.lookup u p with
  | none => (p, false)
  | some s =>
    let s1 := s.erase c
    if s1.isEmpty then (removeKey p u, true) else (setEntry p u s1, false)

/-- `getOnlineUserIds()`: the registry's key list. -/
def getOnlineUserIds (p : Presence) : List String :=
  p.map Prod.fst

/-- The connection-id set currently registered for `u` (empty when the
user has no entry). -/
def connsOf (p : Presence) (u : String) : List String :=
  (List.lookup u p).getD []

/-- Presence broadcasts observable on the wire. -/
inductive PresenceEvent where
  | userOnline (u : String)
  | userOffline (u : String)
deriving DecidableEq, Repr

/-- The `connection` handler: register the socket and, unconditionally,
emit `user_online`. -/
def onConnect (p : Presence) (u c : String) : Presence × List PresenceEvent :=
  (addOnlineUser p u c, [.userOnline u])

/-- The `disconnect` handler: deregister the socket and emit
`user_offline` exactly when `removeOnlineUser` reported the user's last
connection closed. -/
def onDisconnect (p : Presence) (u c : String) : Presence × List PresenceEvent :=
  let r := removeOnlineUser p u c
  (r.1, if r.2 then [.userOffline u] else [])

/-- Registry states reachable from server start through the connection
and disconnection handlers. -/
inductive Reachable : Presence → Prop where
  | init : Reachable emptyPresence
  | connect {p : Presence} (u c : String) : Reachable p → Reachable (onConnect p u c).1
  | disconnect {p : Presence} (u c : String) : Reachable p → Reachable (onDisconnect p u c).1

/-- Structural invariant of the registry: distinct user keys and no empty
connection set retained. -/
def PInv (p : Presence) : Prop :=
  (p.map Prod.fst).Nodup ∧ ∀ e ∈ p, e.2 ≠ ([] : List String)

/-! ## Fixed-window rate limiter (`src/lib/rate-limit.ts`) -/

/-- One window entry of the limiter store. -/
structure RateEntry where
  count : Nat
  resetAt : Nat
deriving DecidableEq, Repr

/-- The process-wide limiter store, keyed by `scope:ip`. -/
abbrev RateStore : Type := List (String × RateEntry)

/-- Result of `evaluateRateLimit`. -/
structure RateDecision where
  ok : Bool
  remaining : Nat
  resetAt : Nat
deriving DecidableEq, Repr

/-- `cleanupExpiredEntries(now)`: drop every entry with `resetAt <= now`. -/
def cleanupExpiredEntries (store : RateStore) (now : Nat) : RateStore :=
  store.filter (fun e => !(e.2.resetAt ≤ now : Bool))

/-- Overwrite or append the binding of `key` in the limiter store. -/
def setRate : RateStore → String → RateEntry → RateStore
  | [], k, v => [(k, v)]
  | e :: es, k, v => if e.1 == k then (k, v) :: es else e :: setRate es k v

/-- `evaluateRateLimit(key, options)` at clock value `now`: clean expired
entries, then either start a fresh window with count 1 or increment the
live window's count; the call is admitted while `count <= max`.
`remaining` is `Math.max(0, max - count)` (`Nat` subtraction). -/
def evaluateRateLimit (store : RateStore) (now : Nat) (key : String)
    (max windowMs : Nat) : RateDecision × RateStore :=
  let cleaned := cleanupExpiredEntries store now
  match List.lookup key cleaned with
  | none =>
    let e : RateEntry := ⟨1, now + windowMs⟩
    (⟨true, max - 1, e.resetAt⟩, setRate cleaned key e)
  | some e =>
    if e.resetAt ≤ now then
      let ne : RateEntry := ⟨1, now + windowMs⟩
      (⟨true, max - 1, ne.resetAt⟩, setRate cleaned key ne)
    else
      let ne : RateEntry := ⟨e.count + 1, e.resetAt⟩
      (⟨decide (ne.count ≤ max), max - ne.count, ne.resetAt⟩, setRate cleaned key ne)

/-- `Math.max(1, Math.ceil((resetAt - now) / 1000))`, the `Retry-After`
header value of a rejected call. -/
def retryAfterSeconds (resetAt now : Nat) : Nat :=
  Nat.max 1 ((resetAt - now + 999) / 1000)

/-- `enforceRateLimit`: `none` when the call is admitted, otherwise the
computed retry-after seconds; in both cases the updated store. -/
def enforceRateLimit (store : RateStore) (now : Nat) (key : String)
    (max windowMs : Nat) : Option Nat × RateStore :=
  let r := evaluateRateLimit store now key max windowMs
  if r.1.ok then (none, r.2)
  else (some (retryAfterSeconds r.1.resetAt now), r.2)

/-- The `POST /api/auth/register` gate: key `"auth:register:" ++ ip`,
`{max: 10, windowMs: 60000}`.  When the gate rejects, the handler body
never runs and the user store is returned untouched; when it admits, the
handler runs (abstracted here as appending the created user). -/
def registerRoute (store : RateStore) (users : List String) (now : Nat)
    (ip : String) (newUser : String) : Option Nat × RateStore × List String :=
  let r := enforceRateLimit store now ("auth:register:" ++ ip) 10 60000
  match r.1 with
  | some retry => (some retry, r.2, users)
  | none => (none, r.2, users ++ [newUser])

/-- The limiter store after `n` register-gate calls for `key`, all issued
at clock value `t`, starting from the empty store. -/
def callN (key : String) (t : Nat) : Nat → RateStore
  | 0 => []
  | n + 1 => (evaluateRateLimit (callN key t n) t key 10 60000).2

/-- The 25-message scenario database: messages m1..m25 posted to room
"r" with ascending creation timestamps 1..25. -/
def scenarioDb : List StoredMessage :=
  (List.range' 1 25).map (fun i => ⟨i, ['m'], none, "u", some "r", none, i⟩)

/-- First page of the pagination round-trip scenario. -/
def scenarioPage1 : Page := listRoomMessages scenarioDb "r" none 20

/-- Second page of the pagination round-trip scenario, using the first
page's `nextBefore` cursor. -/
def scenarioPage2 : Page := listRoomMessages scenarioDb "r" scenarioPage1.nextBefore 20

/-! ## Pagination lemmas -/

/-- The page computation of `GET /api/messages` applied to an
already-sorted row list; `runListQuery` is exactly this composed with the
descending fetch. -/
def pageCore (rowsAll : List StoredMessage) (limit : Nat) : Page :=
  let rows := rowsAll.take (limit + 1)
  let hasMore := limit < rows.length
  let sliced := if hasMore then rows.take limit else rows
  let nextBefore := if hasMore then (sliced.getLast?).map (fun m => m.createdAt) else none
  ⟨sliced.reverse, nextBefore⟩

theorem runListQuery_eq_pageCore (db : List StoredMessage) (pred : StoredMessage → Bool)
    (before : Option Nat) (limit : Nat) :
    runListQuery db pred before limit =
      pageCore (sortDesc (db.filter (fun m => pred m && beforeOk before m))) limit := rfl

theorem mem_insertDesc {m x : StoredMessage} {l : List StoredMessage}
    (h : x ∈ insertDesc m l) : x = m ∨ x ∈ l := by
  induction l with
  | nil =>
    simp only [insertDesc, List.mem_singleton] at h
    exact Or.inl h
  | cons a as ih =>
    rw [insertDesc] at h
    by_cases hc : m.createdAt ≤ a.createdAt
    · rw [if_pos hc] at h
      rcases List.mem_cons.mp h with h1 | h2
      · exact Or.inr (h1 ▸ List.mem_cons_self a as)
      · rcases ih h2 with h3 | h4
        · exact Or.inl h3
        · exact Or.inr (List.mem_cons_of_mem a h4)
    · rw [if_neg hc] at h
      rcases List.mem_cons.mp h with h1 | h2
      · exact Or.inl h1
      · exact Or.inr h2

theorem mem_sortDesc {x : StoredMessage} {l : List StoredMessage}
    (h : x ∈ sortDesc l) : x ∈ l := by
  induction l with
  | nil => simp [sortDesc] at h
  | cons a as ih =>
    rcases mem_insertDesc (show x ∈ insertDesc a (sortDesc as) from h) with h1 | h2
    · exact h1 ▸ List.mem_cons_self a as
    · exact List.mem_cons_of_mem a (ih h2)

theorem insertDesc_mem_of_mem {m x : StoredMessage} {l : List StoredMessage}
    (h : x ∈ l) : x ∈ insertDesc m l := by
  induction l with
  | nil => simp at h
  | cons a as ih =>
    rw [insertDesc]
    by_cases hc : m.createdAt ≤ a.createdAt
    · rw [if_pos hc]
      rcases List.mem_cons.mp h with h1 | h2
      · exact h1 ▸ List.mem_cons_self a _
      · exact List.mem_cons_of_mem a (ih h2)
    · rw [if_neg hc]
      exact List.mem_cons_of_mem m h

theorem insertDesc_self_mem (m : StoredMessage) (l : List StoredMessage) :
    m ∈ insertDesc m l := by
  induction l with
  | nil => simp [insertDesc]
  | cons a as ih =>
    rw [insertDesc]
    by_cases hc : m.createdAt ≤ a.createdAt
    · rw [if_pos hc]
      exact List.mem_cons_of_mem a ih
    · rw [if_neg hc]
      exact List.mem_cons_self m _

theorem pairwise_insertDesc {m : StoredMessage} {l : List StoredMessage}
    (h : l.Pairwise (fun a b => b.createdAt ≤ a.createdAt)) :
    (insertDesc m l).Pairwise (fun a b => b.createdAt ≤ a.createdAt) := by
  induction l with
  | nil => simp [insertDesc]
  | cons a as ih =>
    rw [insertDesc]
    rcases List.pairwise_cons.mp h with ⟨ha, has⟩
    by_cases hc : m.createdAt ≤ a.createdAt
    · rw [if_pos hc]
      refine List.pairwise_cons.mpr ⟨?_, ih has⟩
      intro x hx
      rcases mem_insertDesc hx with h1 | h2
      · exact h1 ▸ hc
      · exact ha x h2
    · rw [if_neg hc]
      refine List.pairwise_cons.mpr ⟨?_, h⟩
      intro x hx
      rcases List.mem_cons.mp hx with h1 | h2
      · exact h1 ▸ Nat.le_of_lt (Nat.lt_of_not_le hc)
      · exact Nat.le_trans (ha x h2) (Nat.le_of_lt (Nat.lt_of_not_le hc))

theorem sortDesc_pairwise (l : List StoredMessage) :
    (sortDesc l).Pairwise (fun a b => b.createdAt ≤ a.createdAt) := by
  induction l with
  | nil => simp [sortDesc]
  | cons a as ih => exact pairwise_insertDesc ih

theorem length_insertDesc (m : StoredMessage) (l : List StoredMessage) :
    (insertDesc m l).length = l.length + 1 := by
  induction l with
  | nil => rfl
  | cons a as ih =>
    rw [insertDesc]
    by_cases hc : m.createdAt ≤ a.createdAt
    · rw [if_pos hc]
      simp [ih]
    · rw [if_neg hc]
      simp

theorem length_sortDesc (l : List StoredMessage) :
    (sortDesc l).length = l.length := by
  induction l with
  | nil => rfl
  | cons a as ih =>
    show (insertDesc a (sortDesc as)).length = as.length + 1
    rw [length_insertDesc, ih]

theorem pageCore_messages_length (s : List StoredMessage) (limit : Nat) :
    (pageCore s limit).messages.length = min limit s.length := by
  rcases Nat.lt_or_ge limit s.length with h | h
  · have hrows : (s.take (limit + 1)).length = limit + 1 :=
      List.length_take_of_le h
    have hm : limit < (s.take (limit + 1)).length := by omega
    simp only [pageCore, if_pos hm, List.length_reverse]
    rw [List.length_take_of_le (by omega), Nat.min_eq_left (Nat.le_of_lt h)]
  · have hrows : s.take (limit + 1) = s := List.take_of_length_le (by omega)
    have hm : ¬ limit < (s.take (limit + 1)).length := by rw [hrows]; omega
    simp only [pageCore, if_neg hm, List.length_reverse]
    rw [hrows, Nat.min_eq_right h]

theorem pageCore_messages_sorted {s : List StoredMessage} (limit : Nat)
    (hs : s.Pairwise (fun a b => b.createdAt ≤ a.createdAt)) :
    (pageCore s limit).messages.Pairwise (fun a b => a.createdAt ≤ b.createdAt) := by
  have hrows : (s.take (limit + 1)).Pairwise (fun a b => b.createdAt ≤ a.createdAt) :=
    hs.sublist (List.take_sublist _ _)
  by_cases hm : limit < (s.take (limit + 1)).length
  · simp only [pageCore, if_pos hm]
    exact (List.pairwise_reverse).mpr (hrows.sublist (List.take_sublist _ _))
  · simp only [pageCore, if_neg hm]
    exact (List.pairwise_reverse).mpr hrows

theorem pageCore_nextBefore (s : List StoredMessage) (limit : Nat) :
    (pageCore s limit).nextBefore =
      if limit < s.length then
        (pageCore s limit).messages.head?.map (fun m => m.createdAt)
      else none := by
  rcases Nat.lt_or_ge limit s.length with h | h
  · have hrows : (s.take (limit + 1)).length = limit + 1 :=
      List.length_take_of_le h
    have hm : limit < (s.take (limit + 1)).length := by omega
    simp only [pageCore, if_pos hm, if_pos h]
    rw [List.getLast?_eq_head?_reverse]
  · have hrows : s.take (limit + 1) = s := List.take_of_length_le (by omega)
    have hm : ¬ limit < (s.take (limit + 1)).length := by rw [hrows]; omega
    have hh : ¬ limit < s.length := by omega
    simp only [pageCore, if_neg hm, if_neg hh]

theorem pageCore_mem {s : List StoredMessage} {limit : Nat} {m : StoredMessage}
    (h : m ∈ (pageCore s limit).messages) : m ∈ s := by
  by_cases hm : limit < (s.take (limit + 1)).length
  · simp only [pageCore, if_pos hm, List.mem_reverse] at h
    exact List.mem_of_mem_take (List.mem_of_mem_take h)
  · simp only [pageCore, if_neg hm, List.mem_reverse] at h
    exact List.mem_of_mem_take h

/-! ## Claim theorems -/

/-- C4: `listMessages` fetches matching rows in descending creation-time
order truncated to `limit + 1` rows, drops the extra row and reverses the
remainder to ascending order (so the returned page is ascending and holds
`min limit n` messages for `n` matching rows), and sets `nextBefore` to
the creation timestamp of the oldest returned row — the head of the
ascending page — exactly when more rows exist, else `none`.
Consequently, for 25 messages inserted with ascending timestamps, a page
of limit 20 followed by a page of limit 20 at `before = nextBefore`
yields all 25 messages with no duplicates, in overall ascending order
when the two pages are concatenated in chronological order (second page,
which is older, first). -/
theorem listMessages_pagination :
    (∀ (db : List StoredMessage) (pred : StoredMessage → Bool)
        (before : Option Nat) (limit : Nat),
      (runListQuery db pred before limit).messages.Pairwise
          (fun a b => a.createdAt ≤ b.createdAt) ∧
      (runListQuery db pred before limit).messages.length =
          min limit (db.filter (fun m => pred m && beforeOk before m)).length ∧
      (runListQuery db pred before limit).nextBefore =
          (if limit < (db.filter (fun m => pred m && beforeOk before m)).length then
            (runListQuery db pred before limit).messages.head?.map (fun m => m.createdAt)
          else none)) ∧
    scenarioPage1.nextBefore = some 6 ∧
    (scenarioPage2.messages ++ scenarioPage1.messages).map (fun m => m.id) =
      List.range' 1 25 ∧
    ((scenarioPage2.messages ++ scenarioPage1.messages).map (fun m => m.id)).Nodup ∧
    ((scenarioPage2.messages ++ scenarioPage1.messages).map
      (fun m => m.createdAt)).Pairwise (fun a b => a < b) ∧
    scenarioPage2.nextBefore = none := by
  refine ⟨?_, by decide, by decide, by decide, by decide, by decide⟩
  intro db pred before limit
  rw [runListQuery_eq_pageCore]
  refine ⟨pageCore_messages_sorted limit (sortDesc_pairwise _), ?_, ?_⟩
  · rw [pageCore_messages_length, length_sortDesc]
  · rw [pageCore_nextBefore, length_sortDesc]

/-- C10: every message returned by the direct-message history read for
caller/receiver pair (`caller`, `other`) has `caller` as sender and
`other` as receiver, or `other` as sender and `caller` as receiver — a
direct conversation the caller is not a participant in is never
returned. -/
theorem dm_history_scoped (db : List StoredMessage) (caller other : String)
    (before : Option Nat) (limit : Nat) (m : StoredMessage)
    (hm : m ∈ (listDirectMessages db caller other before limit).messages) :
    (m.senderId = caller ∧ m.receiverId = some other) ∨
    (m.senderId = other ∧ m.receiverId = some caller) := by
  rw [listDirectMessages, runListQuery_eq_pageCore] at hm
  have h1 := mem_sortDesc (pageCore_mem hm)
  have h2 := (List.mem_filter.mp h1).2
  simp only [dmPred, Bool.and_eq_true, Bool.or_eq_true, beq_iff_eq] at h2
  rcases h2.1 with ⟨ha, hb⟩ | ⟨ha, hb⟩
  · exact Or.inl ⟨ha, hb⟩
  · exact Or.inr ⟨ha, hb⟩

/-- Concrete direct message used to witness the scoping theorem. -/
def wDmMsg : StoredMessage :=
  ⟨1, ['h', 'i'], none, "alice", none, some "bob", 1⟩

/-- Witness for C10: the theorem applied to a one-message store for the
conversation between "alice" and "bob". -/
theorem dm_history_scoped_witness :
    (wDmMsg.senderId = "alice" ∧ wDmMsg.receiverId = some "bob") ∨
    (wDmMsg.senderId = "bob" ∧ wDmMsg.receiverId = some "alice") :=
  dm_history_scoped [wDmMsg] "alice" "bob" none 20 wDmMsg (by decide)

/-! ## Presence registry lemmas -/

theorem lookup_mem {p : Presence} {u : String} {s : List String}
    (h : List.lookup u p = some s) : (u, s) ∈ p := by
  induction p with
  | nil => simp at h
  | cons e es ih =>
    obtain ⟨k, v⟩ := e
    rw [List.lookup_cons] at h
    by_cases hk : (u == k) = true
    · rw [hk] at h
      have hv : v = s := Option.some.inj h
      have hu : u = k := eq_of_beq hk
      rw [← hu, ← hv]
      exact List.mem_cons_self _ _
    · have hk2 : (u == k) = false := Bool.not_eq_true _ ▸ hk
      rw [hk2] at h
      exact List.mem_cons_of_mem _ (ih h)

theorem mem_keys_of_lookup {p : Presence} {u : String} {s : List String}
    (h : List.lookup u p = some s) : u ∈ p.map Prod.fst :=
  List.mem_map.mpr ⟨(u, s), lookup_mem h, rfl⟩

theorem lookup_none_not_mem {p : Presence} {u : String}
    (h : List.lookup u p = none) : u ∉ p.map Prod.fst := by
  induction p with
  | nil => simp
  | cons e es ih =>
    obtain ⟨k, v⟩ := e
    rw [List.lookup_cons] at h
    by_cases hk : (u == k) = true
    · rw [hk] at h
      exact absurd h (by simp)
    · have hk2 : (u == k) = false := Bool.not_eq_true _ ▸ hk
      rw [hk2] at h
      intro hmem
      simp only [List.map_cons, List.mem_cons] at hmem
      rcases hmem with h1 | h2
      · exact hk (h1 ▸ beq_self_eq_true u)
      · exact ih h h2

theorem lookup_some_of_mem_keys {p : Presence} {u : String}
    (h : u ∈ p.map Prod.fst) : ∃ s, List.lookup u p = some s := by
  cases he : List.lookup u p with
  | some s => exact ⟨s, rfl⟩
  | none => exact absurd h (lookup_none_not_mem he)

theorem keys_setEntry {p : Presence} {u : String} (v : List String)
    (h : u ∈ p.map Prod.fst) :
    (setEntry p u v).map Prod.fst = p.map Prod.fst := by
  induction p with
  | nil => simp at h
  | cons e es ih =>
    obtain ⟨k, w⟩ := e
    show (if (k == u) = true then (u, v) :: es else (k, w) :: setEntry es u v).map
        Prod.fst = _
    by_cases hk : (k == u) = true
    · rw [if_pos hk]
      simp [eq_of_beq hk]
    · rw [if_neg hk]
      have hmem : u ∈ es.map Prod.fst := by
        simp only [List.map_cons, List.mem_cons] at h
        rcases h with h1 | h2
        · exact absurd (h1 ▸ beq_self_eq_true k) hk
        · exact h2
      simp [ih hmem]

theorem mem_setEntry {p : Presence} {u : String} {v : List String}
    {e : String × List String} (h : e ∈ setEntry p u v) : e ∈ p ∨ e = (u, v) := by
  induction p with
  | nil =>
    simp only [setEntry, List.mem_singleton] at h
    exact Or.inr h
  | cons a es ih =>
    obtain ⟨k, w⟩ := a
    rw [show setEntry ((k, w) :: es) u v =
        (if (k == u) = true then (u, v) :: es else (k, w) :: setEntry es u v) from rfl] at h
    by_cases hk : (k == u) = true
    · rw [if_pos hk] at h
      rcases List.mem_cons.mp h with h1 | h2
      · exact Or.inr h1
      · exact Or.inl (List.mem_cons_of_mem _ h2)
    · rw [if_neg hk] at h
      rcases List.mem_cons.mp h with h1 | h2
      · exact Or.inl (h1 ▸ List.mem_cons_self _ _)
      · rcases ih h2 with h3 | h4
        · exact Or.inl (List.mem_cons_of_mem _ h3)
        · exact Or.inr h4

theorem PInv_add {p : Presence} (h : PInv p) (u c : String) :
    PInv (addOnlineUser p u c) := by
  unfold addOnlineUser
  cases hl : List.lookup u p with
  | none =>
    refine ⟨?_, ?_⟩
    · rw [List.map_append]
      refine List.Nodup.append h.1 (List.nodup_singleton u) ?_
      intro x hx hx2
      simp only [List.map_cons, List.map_nil, List.mem_singleton] at hx2
      exact lookup_none_not_mem hl (hx2 ▸ hx)
    · intro e he
      rcases List.mem_append.mp he with h1 | h2
      · exact h.2 e h1
      · simp only [List.mem_singleton] at h2
        rw [h2]
        simp
  | some s =>
    have hs : s ≠ [] := h.2 (u, s) (lookup_mem hl)
    have hq : (if c ∈ s then s else s ++ [c]) ≠ [] := by
      split
      · exact hs
      · simp
    refine ⟨?_, ?_⟩
    · rw [keys_setEntry _ (mem_keys_of_lookup hl)]
      exact h.1
    · intro e he
      rcases mem_setEntry he with h1 | h2
      · exact h.2 e h1
      · rw [h2]
        exact hq

theorem PInv_remove {p : Presence} (h : PInv p) (u c : String) :
    PInv (removeOnlineUser p u c).1 := by
  unfold removeOnlineUser
  cases hl : List.lookup u p with
  | none => exact h
  | some s =>
    dsimp only
    by_cases he : (s.erase c).isEmpty = true
    · rw [if_pos he]
      refine ⟨?_, ?_⟩
      · exact h.1.sublist ((List.filter_sublist _).map _)
      · intro e hme
        exact h.2 e (List.mem_of_mem_filter hme)
    · rw [if_neg he]
      have hne : s.erase c ≠ [] := by
        intro hx
        exact he (by rw [hx]; rfl)
      refine ⟨?_, ?_⟩
      · rw [keys_setEntry _ (mem_keys_of_lookup hl)]
        exact h.1
      · intro e hme
        rcases mem_setEntry hme with h1 | h2
        · exact h.2 e h1
        · rw [h2]
          exact hne

theorem reachable_PInv {p : Presence} (h : Reachable p) : PInv p := by
  induction h with
  | init => exact ⟨List.nodup_nil, by simp [emptyPresence]⟩
  | connect u c _ ih => exact PInv_add ih u c
  | disconnect u c _ ih => exact PInv_remove ih u c

theorem online_iff_conns {p : Presence} (h : PInv p) (u : String) :
    u ∈ getOnlineUserIds p ↔ connsOf p u ≠ [] := by
  unfold getOnlineUserIds connsOf
  constructor
  · intro hm
    obtain ⟨s, hs⟩ := lookup_some_of_mem_keys hm
    rw [hs]
    simpa using h.2 (u, s) (lookup_mem hs)
  · intro hne
    cases he : List.lookup u p with
    | none => rw [he] at hne; simp at hne
    | some s => exact mem_keys_of_lookup he

theorem removeOnlineUser_offline_iff {p : Presence} (h : PInv p) (u c : String) :
    (removeOnlineUser p u c).2 = true ↔
      connsOf p u ≠ [] ∧ (connsOf p u).erase c = [] := by
  unfold removeOnlineUser connsOf
  cases hl : List.lookup u p with
  | none => simp
  | some s =>
    have hs : s ≠ [] := h.2 (u, s) (lookup_mem hl)
    dsimp only
    by_cases he : (s.erase c).isEmpty = true
    · rw [if_pos he]
      simp [hs, List.isEmpty_iff.mp he]
    · rw [if_neg he]
      have hne : s.erase c ≠ [] := by
        intro hx
        exact he (by rw [hx]; rfl)
      simp [hne]

theorem remove_true_deletes_entry {p : Presence} {u c : String}
    (h : (removeOnlineUser p u c).2 = true) :
    u ∉ getOnlineUserIds (removeOnlineUser p u c).1 := by
  unfold removeOnlineUser at h ⊢
  cases hl : List.lookup u p with
  | none => rw [hl] at h; simp at h
  | some s =>
    rw [hl] at h
    dsimp only at h ⊢
    by_cases he : (s.erase c).isEmpty = true
    · rw [if_pos he]
      unfold getOnlineUserIds removeKey
      intro hmem
      rcases List.mem_map.mp hmem with ⟨e, hme, hfe⟩
      have hneq := (List.mem_filter.mp hme).2
      rw [bne_iff_ne] at hneq
      exact hneq hfe
    · rw [if_neg he] at h
      simp at h

theorem onDisconnect_emits_iff (p : Presence) (u c : String) :
    (onDisconnect p u c).2 = [PresenceEvent.userOffline u] ↔
      (removeOnlineUser p u c).2 = true := by
  unfold onDisconnect
  by_cases hr : (removeOnlineUser p u c).2 = true
  · simp [hr]
  · simp [hr]

/-- C1 counterexample: with user "u" already holding live connection
"c1", opening a second connection "c2" still broadcasts `user_online` —
the transition is not restricted to the first connection. -/
theorem user_online_not_coalesced_cex :
    connsOf (onConnect emptyPresence "u" "c1").1 "u" = ["c1"] ∧
    (onConnect (onConnect emptyPresence "u" "c1").1 "u" "c2").2 =
      [PresenceEvent.userOnline "u"] := by decide

/-- C1 amended: the connection handler broadcasts `user_online` on every
new connection, whether or not the user already has live connections (the
registry itself still coalesces state — the user is online afterwards
either way). -/
theorem user_online_on_every_connection (p : Presence) (u c : String) :
    (onConnect p u c).2 = [PresenceEvent.userOnline u] ∧
    u ∈ getOnlineUserIds (onConnect p u c).1 := by
  refine ⟨rfl, ?_⟩
  show u ∈ getOnlineUserIds (addOnlineUser p u c)
  unfold addOnlineUser getOnlineUserIds
  cases hl : List.lookup u p with
  | none => simp
  | some s =>
    rw [keys_setEntry _ (mem_keys_of_lookup hl)]
    exact mem_keys_of_lookup hl

/-- C7: in every reachable registry state, a user is listed by
`getOnlineUserIds` iff its connection set is non-empty, no user id maps
to an empty set, removing a connection broadcasts `user_offline` exactly
when it removes the user's last connection, and in that case the user's
entry is deleted entirely. -/
theorem presence_registry_invariant (p : Presence) (h : Reachable p) :
    (∀ u, u ∈ getOnlineUserIds p ↔ connsOf p u ≠ []) ∧
    (∀ e ∈ p, e.2 ≠ ([] : List String)) ∧
    (∀ u c, (onDisconnect p u c).2 = [PresenceEvent.userOffline u] ↔
      connsOf p u ≠ [] ∧ (connsOf p u).erase c = []) ∧
    (∀ u c, (removeOnlineUser p u c).2 = true →
      u ∉ getOnlineUserIds (removeOnlineUser p u c).1) := by
  have hinv := reachable_PInv h
  refine ⟨fun u => online_iff_conns hinv u, hinv.2, ?_, ?_⟩
  · intro u c
    exact (onDisconnect_emits_iff p u c).trans (removeOnlineUser_offline_iff hinv u c)
  · intro u c hr
    exact remove_true_deletes_entry hr

/-- Witness for C7: in the reachable state where "pu" has the single
connection "pc", the user is online and removing that connection reports
the offline transition. -/
theorem presence_registry_invariant_witness :
    "pu" ∈ getOnlineUserIds (onConnect emptyPresence "pu" "pc").1 ∧
    (onDisconnect (onConnect emptyPresence "pu" "pc").1 "pu" "pc").2 =
      [PresenceEvent.userOffline "pu"] := by
  have h := presence_registry_invariant _ (Reachable.connect "pu" "pc" Reachable.init)
  exact ⟨(h.1 "pu").mpr (by decide), (h.2.2.1 "pu" "pc").mpr (by decide)⟩

/-! ## Rate limiter lemmas -/

theorem callN_succ (key : String) (t : Nat) (n : Nat) :
    callN key t (n + 1) = [(key, ⟨n + 1, t + 60000⟩)] := by
  induction n with
  | zero =>
    show (evaluateRateLimit [] t key 10 60000).2 = _
    simp [evaluateRateLimit, cleanupExpiredEntries, setRate]
  | succ m ih =>
    show (evaluateRateLimit (callN key t (m + 1)) t key 10 60000).2 = _
    rw [ih]
    have h1 : ¬ (t + 60000 ≤ t) := by omega
    simp [evaluateRateLimit, cleanupExpiredEntries, setRate, h1]

theorem callN_eq (key : String) (t : Nat) (n : Nat) (hn : 1 ≤ n) :
    callN key t n = [(key, ⟨n, t + 60000⟩)] := by
  cases n with
  | zero => omega
  | succ m => exact callN_succ key t m

/-- C9 counterexample: the 11th call inside the window is rejected, yet
it still mutates the limiter store — the window counter advances from 10
to 11 (`existing.count += 1` runs before the limit comparison). -/
theorem rate_limit_mutation_cex :
    (evaluateRateLimit (callN "auth:register:203.0.113.7" 0 10) 0
      "auth:register:203.0.113.7" 10 60000).1.ok = false ∧
    (evaluateRateLimit (callN "auth:register:203.0.113.7" 0 10) 0
      "auth:register:203.0.113.7" 10 60000).2 ≠
      callN "auth:register:203.0.113.7" 0 10 := by decide

/-- C9 amended: with the fixed window `{max: 10, windowMs: 60000}` on
scope "auth:register", the first 10 calls from one address are admitted;
the 11th call inside the window is rejected with a retry-after of exactly
60 seconds and never reaches the guarded handler (the user store is
untouched), although the limiter's own counter increments to 11; once the
window elapses, the next call from that address is admitted and the
counter resets to 1. -/
theorem rate_limit_window_amended (ip : String) (t : Nat) (users : List String)
    (nu : String) :
    (∀ n, n ≤ 9 →
      (evaluateRateLimit (callN ("auth:register:" ++ ip) t n) t
        ("auth:register:" ++ ip) 10 60000).1.ok = true) ∧
    registerRoute (callN ("auth:register:" ++ ip) t 10) users t ip nu =
      (some 60, [("auth:register:" ++ ip, ⟨11, t + 60000⟩)], users) ∧
    evaluateRateLimit [("auth:register:" ++ ip, ⟨11, t + 60000⟩)] (t + 60000)
        ("auth:register:" ++ ip) 10 60000 =
      (⟨true, 9, t + 120000⟩, [("auth:register:" ++ ip, ⟨1, t + 120000⟩)]) := by
  have hlt : ¬ (t + 60000 ≤ t) := by omega
  refine ⟨?_, ?_, ?_⟩
  · intro n hn
    cases n with
    | zero =>
      show (evaluateRateLimit [] t _ 10 60000).1.ok = true
      simp [evaluateRateLimit, cleanupExpiredEntries]
    | succ m =>
      rw [callN_succ]
      simp [evaluateRateLimit, cleanupExpiredEntries, hlt]
      omega
  · rw [callN_eq _ t 10 (by norm_num)]
    have hsub : t + 60000 - t + 999 = 60999 := by omega
    unfold registerRoute enforceRateLimit evaluateRateLimit cleanupExpiredEntries
      retryAfterSeconds setRate
    simp [hlt, hsub]
  · unfold evaluateRateLimit cleanupExpiredEntries
    have hd : (decide (t + 60000 ≤ t + 60000)) = true := decide_eq_true (Nat.le_refl _)
    have h2 : t + 60000 + 60000 = t + 120000 := by omega
    simp only [List.filter_cons, hd, Bool.not_true, Bool.false_eq_true, if_false,
      List.filter_nil, List.lookup_nil, h2]
    rfl

/-- Witness for C9: the amended rate-limit behavior evaluated for a
concrete address at clock 0. -/
theorem rate_limit_window_witness :
    (evaluateRateLimit (callN ("auth:register:" ++ "198.51.100.4") 0 4) 0
      ("auth:register:" ++ "198.51.100.4") 10 60000).1.ok = true ∧
    registerRoute (callN ("auth:register:" ++ "198.51.100.4") 0 10) ["a"] 0
      "198.51.100.4" "b" =
      (some 60, [("auth:register:" ++ "198.51.100.4", ⟨11, 0 + 60000⟩)], ["a"]) := by
  have h := rate_limit_window_amended "198.51.100.4" 0 ["a"] "b"
  exact ⟨h.1 4 (by norm_num), h.2.1⟩

/-! ## Sanitizer claims -/

/-- C5 counterexample: U+0080 is a C1 control character, yet the
sanitizer returns it unchanged — the stripping regex covers only C0 and
DEL (`[\u0000-\u001F\u007F]`), not the C1 block U+0080–U+009F. -/
theorem sanitizer_c1_survives_cex :
    sanitizeMessageContent [Char.ofNat 0x80] = [Char.ofNat 0x80] ∧
    0x80 ≤ (Char.ofNat 0x80).toNat ∧ (Char.ofNat 0x80).toNat ≤ 0x9F := by decide

/-- C5 amended: for every input, the sanitizer removes all C0 control
characters and DEL (U+007F) — but not the C1 controls — removes every
angle bracket, and trims: the result never starts or ends with a
JavaScript-whitespace character, and only ever removes characters. -/
theorem sanitizer_strips_amended (l : List Char) :
    (∀ c ∈ sanitizeMessageContent l,
      ¬ c.toNat ≤ 0x1F ∧ c.toNat ≠ 0x7F ∧ c ≠ '<' ∧ c ≠ '>') ∧
    (∀ c, (sanitizeMessageContent l).head? = some c → isJsWhitespace c = false) ∧
    (∀ c, (sanitizeMessageContent l).getLast? = some c → isJsWhitespace c = false) ∧
    (∀ c ∈ sanitizeMessageContent l, c ∈ l) := by
  refine ⟨?_, fun c h => sanitize_head_not_ws h, fun c h => sanitize_getLast_not_ws h,
    fun c h => (sanitize_mem h).2.2⟩
  intro c h
  have h1 := (sanitize_mem h).1
  have h2 := (sanitize_mem h).2.1
  unfold isControlOrDel at h1
  unfold isAngle at h2
  simp only [Bool.or_eq_false_iff, decide_eq_false_iff_not, beq_eq_false_iff_ne] at h1 h2
  exact ⟨h1.1, h1.2, h2.1, h2.2⟩

/-- Witness for C5 (amended): the sanitizer output of " a" consists of
non-control, non-angle characters and does not start with whitespace. -/
theorem sanitizer_strips_witness :
    (¬ 'a'.toNat ≤ 0x1F ∧ 'a'.toNat ≠ 0x7F ∧ 'a' ≠ '<' ∧ 'a' ≠ '>') ∧
    isJsWhitespace 'a' = false := by
  have h := sanitizer_strips_amended [' ', 'a']
  exact ⟨h.1 'a' (by decide), h.2.1 'a' (by decide)⟩

/-- C8: the content sanitizer is idempotent — sanitizing
already-sanitized content is a no-op. -/
theorem sanitizer_idempotent (l : List Char) :
    sanitizeMessageContent (sanitizeMessageContent l) = sanitizeMessageContent l :=
  sanitize_idem l

/-! ## Validation claims -/

/-- A fixed valid uuid used as a concrete room id. -/
def uuidA : List Char := "00000000-0000-0000-0000-000000000000".toList

/-- A second fixed valid uuid used as a concrete receiver id. -/
def uuidB : List Char := "11111111-1111-1111-1111-111111111111".toList

/-- C2 counterexample: the payload with content "&lt;&gt;" (just the two
angle brackets) and no file reference passes schema validation — the
refine clause checks `content.trim()`, not the sanitized content — and is
persisted with empty content and no attachment. -/
theorem send_empty_validation_cex :
    sendMessagePayloadOk ⟨some ['<', '>'], none⟩ = true ∧
    sanitizeMessageContent ['<', '>'] = [] ∧
    storedContentFor ⟨some ['<', '>'], none⟩ = [] ∧
    (MsgPayload.mk (some ['<', '>']) none).fileUrl = none := by decide

theorem fileUrl_nonempty_of_base {oc : Option (List Char)} {f : List Char}
    (hb : baseFieldsOk ⟨oc, some f⟩ = true) : f.isEmpty = false := by
  simp only [baseFieldsOk, Bool.and_eq_true] at hb
  have hls := hb.2.2
  cases f with
  | nil => exact absurd hls (by decide)
  | cons a as => rfl

/-- C2 amended: under well-formed fields, a send fails validation exactly
when the *trimmed* content is empty (or absent) and no file reference is
given; content that is non-empty after trimming but empty after
sanitization (for example "&lt;&gt;") passes validation with no file
reference and is persisted with empty content.  When the sanitized
content is empty and a file reference is present, the persisted content
is the placeholder "Shared a file". -/
theorem send_empty_validation_amended (p : MsgPayload) (hb : baseFieldsOk p = true) :
    (sendMessagePayloadOk p = false ↔
      jsTrim (p.content.getD []) = [] ∧ p.fileUrl = none) ∧
    (sanitizeMessageContent (p.content.getD []) = [] → truthyStr p.fileUrl = true →
      storedContentFor p = "Shared a file".toList) := by
  obtain ⟨oc, of⟩ := p
  constructor
  · show (baseFieldsOk ⟨oc, of⟩ && refineContentOrFile ⟨oc, of⟩) = false ↔ _
    rw [hb, Bool.true_and]
    cases oc with
    | none =>
      cases of with
      | none => decide
      | some f =>
        have hf := fileUrl_nonempty_of_base hb
        simp [refineContentOrFile, truthyStr, hf]
    | some c =>
      cases of with
      | none =>
        simp [refineContentOrFile, truthyStr, List.isEmpty_iff]
      | some f =>
        have hf := fileUrl_nonempty_of_base hb
        simp [refineContentOrFile, truthyStr, hf]
  · intro hs ht
    simp [storedContentFor, hs, ht]

/-- Witness for C2 (amended): a payload with no content and a valid
upload reference passes validation and stores the placeholder text. -/
theorem send_empty_validation_witness :
    (sendMessagePayloadOk ⟨none, some "/uploads/a.png".toList⟩ = false ↔
      jsTrim ((none : Option (List Char)).getD []) = [] ∧
      (some "/uploads/a.png".toList : Option (List Char)) = none) ∧
    storedContentFor ⟨none, some "/uploads/a.png".toList⟩ = "Shared a file".toList := by
  have h := send_empty_validation_amended ⟨none, some "/uploads/a.png".toList⟩ (by decide)
  exact ⟨h.1, h.2 (by decide) (by decide)⟩

/-- C3 counterexample: a creation body carrying both a valid roomId and a
valid receiverId is not rejected — the dispatch sees the roomId, applies
the room schema, and zod silently strips the unknown receiverId key. -/
theorem exclusivity_cex :
    postMessageDecision ⟨some uuidA, some uuidB, some ['h', 'i'], none⟩ =
      PostDecision.roomMessage uuidA ∧
    postMessageDecision ⟨some uuidA, some uuidB, some ['h', 'i'], none⟩ ≠
      PostDecision.rejected := by decide

/-- C3 amended: the history read rejects queries carrying both ids and
queries carrying neither; message creation rejects bodies carrying
neither id, but a body carrying both ids is processed as a room message —
the receiverId field is ignored entirely on the room path. -/
theorem exclusivity_amended :
    (∀ q : HistoryQuery, q.roomId.isSome = true → q.receiverId.isSome = true →
      historyQueryOk q = false) ∧
    (∀ q : HistoryQuery, q.roomId = none → q.receiverId = none →
      historyQueryOk q = false) ∧
    (∀ b : CreateBody, b.roomId = none → b.receiverId = none →
      postMessageDecision b = PostDecision.rejected) ∧
    (∀ b : CreateBody, b.roomId.isSome = true →
      postMessageDecision b =
        postMessageDecision ⟨b.roomId, none, b.content, b.fileUrl⟩) := by
  refine ⟨?_, ?_, ?_, ?_⟩
  · intro q h1 h2
    obtain ⟨r, hr⟩ := Option.isSome_iff_exists.mp h1
    obtain ⟨v, hv⟩ := Option.isSome_iff_exists.mp h2
    simp [historyQueryOk, hr, hv]
  · intro q h1 h2
    simp [historyQueryOk, h1, h2]
  · intro b h1 h2
    simp [postMessageDecision, h1, h2]
  · intro b h1
    obtain ⟨r, hr⟩ := Option.isSome_iff_exists.mp h1
    simp [postMessageDecision, hr]

/-- Witness for C3 (amended): the four amended clauses evaluated at
concrete queries and bodies. -/
theorem exclusivity_witness :
    historyQueryOk ⟨some uuidA, some uuidB⟩ = false ∧
    historyQueryOk ⟨none, none⟩ = false ∧
    postMessageDecision ⟨none, none, some ['h'], none⟩ = PostDecision.rejected ∧
    postMessageDecision ⟨some uuidA, some uuidB, some ['h'], none⟩ =
      postMessageDecision ⟨some uuidA, none, some ['h'], none⟩ := by
  have h := exclusivity_amended
  exact ⟨h.1 ⟨some uuidA, some uuidB⟩ (by decide) (by decide),
    h.2.1 ⟨none, none⟩ rfl rfl,
    h.2.2.1 ⟨none, none, some ['h'], none⟩ rfl rfl,
    h.2.2.2 ⟨some uuidA, some uuidB, some ['h'], none⟩ (by decide)⟩

/-! ## Room-send authorization claims -/

/-- C6 counterexample: posting through `POST /api/messages` to an
existing private room created by "alice" fails with `Forbidden` for the
authenticated principal "bob" — the REST write path does check
authorization beyond existence. -/
theorem room_send_private_forbidden_cex :
    restPostRoom [⟨uuidA, true, "alice"⟩] "bob" uuidA ⟨some ['h', 'i'], none⟩ =
      Except.error SendErr.forbidden := by rfl

/-- C6 amended: both send paths fail with `NotFound` when the room id
does not exist; the socket-path send performs no check beyond existence
(any authenticated principal may post to any existing room, private or
not), while the REST `POST /api/messages` room branch additionally
rejects a private room whose creator is not the sender with
`Forbidden`. -/
theorem room_send_authorization_amended (rooms : List Room) (sender : String)
    (rid : List Char) (p : MsgPayload) (hu : isUuid rid = true)
    (hp : sendMessagePayloadOk p = true) :
    (findRoom rooms rid = none →
      socketSendRoom rooms sender rid p = Except.error SendErr.notFound ∧
      restPostRoom rooms sender rid p = Except.error SendErr.notFound) ∧
    (∀ room, findRoom rooms rid = some room →
      socketSendRoom rooms sender rid p = Except.ok (storedContentFor p) ∧
      (restPostRoom rooms sender rid p = Except.error SendErr.forbidden ↔
        room.isPrivate = true ∧ room.creatorId ≠ sender)) := by
  constructor
  · intro hf
    constructor
    · simp [socketSendRoom, hu, hp, hf]
    · simp [restPostRoom, hu, hp, hf]
  · intro room hf
    constructor
    · simp [socketSendRoom, hu, hp, hf]
    · have hrw : restPostRoom rooms sender rid p =
          (if room.isPrivate && room.creatorId != sender then
            Except.error SendErr.forbidden
          else Except.ok (storedContentFor p)) := by
        simp [restPostRoom, hu, hp, hf]
      rw [hrw]
      by_cases hc : (room.isPrivate && room.creatorId != sender) = true
      · rw [if_pos hc]
        simp only [Bool.and_eq_true, bne_iff_ne] at hc
        simp [hc]
      · rw [if_neg hc]
        constructor
        · intro hcontra
          exact absurd hcontra (by simp)
        · intro hrhs
          refine absurd ?_ hc
          rw [hrhs.1, Bool.true_and, bne_iff_ne]
          exact hrhs.2

/-- Witness for C6 (amended): with no rooms the send is `NotFound` on
both paths; with a private room created by "alice", the socket path
accepts a post from "bob" while the REST path's `Forbidden` outcome is
equivalent to the room being private with a different creator. -/
theorem room_send_authorization_witness :
    (socketSendRoom [] "alice" uuidA ⟨some ['h'], none⟩ =
        Except.error SendErr.notFound ∧
      restPostRoom [] "alice" uuidA ⟨some ['h'], none⟩ =
        Except.error SendErr.notFound) ∧
    (socketSendRoom [⟨uuidA, true, "alice"⟩] "bob" uuidA ⟨some ['h'], none⟩ =
        Except.ok (storedContentFor ⟨some ['h'], none⟩) ∧
      (restPostRoom [⟨uuidA, true, "alice"⟩] "bob" uuidA ⟨some ['h'], none⟩ =
          Except.error SendErr.forbidden ↔
        (Room.mk uuidA true "alice").isPrivate = true ∧
        (Room.mk uuidA true "alice").creatorId ≠ "bob")) := by
  have h1 := room_send_authorization_amended [] "alice" uuidA
    ⟨some ['h'], none⟩ (by decide) (by decide)
  have h2 := room_send_authorization_amended [⟨uuidA, true, "alice"⟩] "bob" uuidA
    ⟨some ['h'], none⟩ (by decide) (by decide)
  exact ⟨h1.1 rfl, h2.2 ⟨uuidA, true, "alice"⟩ (by decide)⟩

end Chat
